import Mathlib

/-!
# RouteX core contracts: shallow embedding and verification

This file embeds the MEV-protection core of the RouteX repository —
`RouteOptimizer.sol` and `RouterDefense.sol` — as executable Lean
definitions, and proves (or refutes) the behavioural claims of the
specification against them.

Modelling conventions:
* `uint256` values are `Nat`; all Solidity arithmetic on the relevant
  paths is division/subtraction-safe so no mod-2^256 wrap can occur on
  the inputs we quantify over (inputs are unconstrained `Nat`s and the
  source operations are `*`, `/`, checked `-` on quantities bounded by
  their minuend).
* addresses and tokens are `Nat` (token `0` plays the role of
  `address(0)`, i.e. native ETH).
* `bytes32` is the inductive `Bytes32`: the keccak commitment hash is
  idealised as a free constructor over the hashed tuple (collision-free
  injective hash), `Bytes32.zero` is `bytes32(0)`, and `Bytes32.other`
  covers arbitrary unrelated words.
* every external entry point returns `Except RDError …`; an `.error`
  result models an EVM revert, i.e. the caller's state is unchanged
  (made explicit by the `step` function, which keeps the pre-state on
  error).
* the external Uniswap router is an oracle `VenueOracle : Route → Nat →
  Nat` giving the realised output of a single-leg swap.
-/

/-- The `SwapParams` struct of `IRouterDefense.sol`. -/
structure SwapParams where
  tokenIn : Nat
  tokenOut : Nat
  amountIn : Nat
  amountOutMin : Nat
  recipient : Nat
  deadline : Nat
deriving DecidableEq, Repr

/-- Model of `bytes32` words as used by the commit–reveal scheme: the zero word,
an idealised keccak image of a reveal tuple, or any other word. -/
inductive Bytes32 where
  | zero : Bytes32
  | hashData (sender : Nat) (p : SwapParams) (nonce : Nat) (salt : Nat) : Bytes32
  | other (n : Nat) : Bytes32
deriving DecidableEq, Repr

/-- The hash `keccak256(abi.encodePacked(msg.sender, params…, nonce, salt))` of
`revealAndExecute`, idealised as an injective constructor. -/
def keccakCommit (sender : Nat) (p : SwapParams) (nonce salt : Nat) : Bytes32 :=
  Bytes32.hashData sender p nonce salt

/-- The `CommitRevealOrder` struct of `IRouterDefense.sol`; the default
value is the Solidity mapping default (all-zero slot). -/
structure CommitRevealOrder where
  commitment : Bytes32 := Bytes32.zero
  deadline : Nat := 0
  revealed : Bool := false
  executed : Bool := false
deriving DecidableEq, Repr

instance : Inhabited CommitRevealOrder := ⟨{}⟩

/-- The `Route` struct of `IRouterDefense.sol`. -/
structure Route where
  pool : Nat
  tokenIn : Nat
  tokenOut : Nat
  percentage : Nat
deriving DecidableEq, Repr

namespace RouteOptimizer

/-- The `PoolInfo` struct of `RouteOptimizer.sol`. -/
structure PoolInfo where
  pool : Nat
  token0 : Nat
  token1 : Nat
  liquidity : Nat
  fee : Nat
deriving DecidableEq, Repr

def MAX_ROUTES : Nat := 3

def PERCENTAGE_BASE : Nat := 10000

/-- Embeds `RouteOptimizer._isValidPool`. -/
def isValidPool (pool : PoolInfo) (tokenIn tokenOut : Nat) : Bool :=
  (pool.token0 == tokenIn && pool.token1 == tokenOut) ||
  (pool.token0 == tokenOut && pool.token1 == tokenIn)

/-- Embeds `RouteOptimizer._calculatePoolCapacity`: 30% of reported liquidity
(the `amountIn` parameter is unused by the source, which we mirror). -/
def calculatePoolCapacity (pool : PoolInfo) (amountIn : Nat) : Nat :=
  pool.liquidity * 3000 / 10000

/-- Embeds `RouteOptimizer._calculateExpectedOutput`: deduct `pool.fee`
(Uniswap units, millionths) from `amountIn`, then apply the 997/1000
slippage factor, truncating at every division. -/
def calculateExpectedOutput (pool : PoolInfo) (tokenIn tokenOut amountIn : Nat) : Nat :=
  let feeAmount := amountIn * pool.fee / 1000000
  let amountInAfterFee := amountIn - feeAmount
  amountInAfterFee * 997 / 1000

/-- The loop of `RouteOptimizer.optimizeRoute`, iterating over the
candidate pools in source order while `routeCount < MAX_ROUTES` and
`remainingAmount > 0`.  Each produced leg is returned together with the
(ghost) input amount `routeAmount` allocated to it; the second
component accumulates `expectedAmountOut`. -/
def optimizeGo (tokenIn tokenOut amountIn : Nat) :
    List PoolInfo → Nat → Nat → List (Route × Nat) × Nat
  | [], _, _ => ([], 0)
  | pool :: rest, routeCount, remaining =>
    if routeCount < MAX_ROUTES ∧ 0 < remaining then
      if isValidPool pool tokenIn tokenOut then
        let poolCapacity := calculatePoolCapacity pool amountIn
        let routeAmount := if remaining > poolCapacity then poolCapacity else remaining
        if routeAmount = 0 then
          optimizeGo tokenIn tokenOut amountIn rest routeCount remaining
        else
          let percentage := routeAmount * PERCENTAGE_BASE / amountIn
          let expectedOut := calculateExpectedOutput pool tokenIn tokenOut routeAmount
          let tail := optimizeGo tokenIn tokenOut amountIn rest (routeCount + 1)
            (remaining - routeAmount)
          ((⟨pool.pool, tokenIn, tokenOut, percentage⟩, routeAmount) :: tail.1,
            expectedOut + tail.2)
      else
        optimizeGo tokenIn tokenOut amountIn rest routeCount remaining
    else ([], 0)

/-- Embeds `RouteOptimizer.optimizeRoute`: the returned `routes` array is the
buffer trimmed to `routeCount` entries (the `mstore` shrink), which in
the embedding is exactly the list of produced legs. -/
def optimizeRoute (tokenIn tokenOut amountIn : Nat) (availablePools : List PoolInfo) :
    List Route × Nat :=
  let r := optimizeGo tokenIn tokenOut amountIn availablePools 0 amountIn
  (r.1.map Prod.fst, r.2)

/-- The leg input amounts chosen by `optimizeRoute` (ghost data of the
loop). -/
def optimizeLegAmounts (tokenIn tokenOut amountIn : Nat) (availablePools : List PoolInfo) :
    List Nat :=
  ((optimizeGo tokenIn tokenOut amountIn availablePools 0 amountIn).1).map Prod.snd

end RouteOptimizer

namespace RouterDefense

open RouteOptimizer

def COMMIT_REVEAL_DELAY : Nat := 60

def MAX_BATCH_SIZE : Nat := 20

/-- Errors raised (as `require` revert strings / EVM reverts) by
`RouterDefense.sol`, one constructor per distinct revert site. -/
inductive RDError where
  | invalidCommitment    -- "RouterDefense: invalid commitment"
  | commitmentUsed       -- "RouterDefense: commitment used"
  | deadlineTooSoon      -- "RouterDefense: deadline too soon"
  | deadlineTooFar       -- "RouterDefense: deadline too far"
  | invalidReveal        -- "RouterDefense: invalid reveal"
  | alreadyRevealed      -- "RouterDefense: already revealed"
  | alreadyExecuted      -- "RouterDefense: already executed"
  | commitmentExpired    -- "RouterDefense: commitment expired"
  | revealTooEarly       -- "RouterDefense: reveal too early"
  | expiredDeadline      -- "RouterDefense: expired deadline"
  | invalidAmount        -- "RouterDefense: invalid amount"
  | transferFailed       -- ERC20 safeTransferFrom revert
  | incorrectETHAmount   -- "RouterDefense: incorrect ETH amount"
  | insufficientOutput   -- "RouterDefense: insufficient output"
  | slippageExceeded     -- "RouterDefense: slippage exceeded"
  | noRoutesAvailable    -- "RouterDefense: no routes available"
  | noRevealedOrders     -- "RouterDefense: no revealed orders"
deriving DecidableEq, Repr

/-- The address of the `RouterDefense` contract itself in the balance
books (out of the 160-bit user range, so distinct from any caller). -/
def contractAddr : Nat := 2 ^ 160

/-- Storage of the `RouterDefense` contract, plus the ERC20/native
balance books (`balances token holder`) needed to express fund
custody. -/
structure RDState where
  commitments : Nat → CommitRevealOrder
  usedCommitments : Bytes32 → Bool
  revealedOrders : List Nat
  tokenPairPools : Nat → Nat → List Nat
  balances : Nat → Nat → Nat

/-- External single-leg execution: realised output of swapping
`amountIn` along `route`, as reported by the Uniswap router
collaborator. -/
def VenueOracle : Type := Route → Nat → Nat

/-- Embeds `RouterDefense.commitOrder` (with its `validCommitment`
modifier). -/
def commitOrder (s : RDState) (sender : Nat) (commitment : Bytes32)
    (deadline now : Nat) : Except RDError RDState :=
  if commitment = Bytes32.zero then .error .invalidCommitment
  else if s.usedCommitments commitment then .error .commitmentUsed
  else if deadline ≤ now + COMMIT_REVEAL_DELAY then .error .deadlineTooSoon
  else if now + 3600 < deadline then .error .deadlineTooFar
  else .ok { s with
    commitments := fun a => if a = sender then
        { commitment := commitment, deadline := deadline,
          revealed := false, executed := false }
      else s.commitments a,
    usedCommitments := fun h => if h = commitment then true else s.usedCommitments h }

/-- Embeds `RouterDefense._getAvailablePools`: every registered pool for the
pair is reported with the hard-coded liquidity `1000000 * 1e18` and fee
`3000`. -/
def getAvailablePools (s : RDState) (tokenIn tokenOut : Nat) : List PoolInfo :=
  (s.tokenPairPools tokenIn tokenOut).map fun p =>
    { pool := p,
      token0 := if tokenIn < tokenOut then tokenIn else tokenOut,
      token1 := if tokenIn < tokenOut then tokenOut else tokenIn,
      liquidity := 1000000 * 10 ^ 18,
      fee := 3000 }

/-- Embeds `RouterDefense.getOptimalRoute`. -/
def getOptimalRoute (s : RDState) (tokenIn tokenOut amountIn : Nat) :
    List Route × Nat :=
  optimizeRoute tokenIn tokenOut amountIn (getAvailablePools s tokenIn tokenOut)

/-- ERC20 transfer inside the balance books; fails iff the sender's
balance is insufficient (the only revert of `safeTransferFrom` the
model distinguishes). -/
def transferToken (s : RDState) (token source dest amount : Nat) :
    Except RDError RDState :=
  if s.balances token source < amount then .error .transferFailed
  else
    let bal := fun t h =>
      if t = token ∧ h = source then s.balances t h - amount
      else if t = token ∧ h = dest then s.balances t h + amount
      else s.balances t h
    .ok { s with balances := bal }

/-- Fund pull common to `protectedSwap` and `revealAndExecute`: an
ERC20 `safeTransferFrom` for a token input, or the
`msg.value == amountIn` check for native input. -/
def pullFunds (s : RDState) (sender msgValue : Nat) (p : SwapParams) :
    Except RDError RDState :=
  if p.tokenIn ≠ 0 then
    transferToken s p.tokenIn sender contractAddr p.amountIn
  else if msgValue ≠ p.amountIn then .error .incorrectETHAmount
  else transferToken s 0 sender contractAddr msgValue

/-- Embeds `RouterDefense._executeSingleRoute`: the contract forwards
`amountIn` of the leg's input token to the router and the router pays
the realised output of the leg's output token to `recipient`. -/
def executeSingleRoute (oracle : VenueOracle) (s : RDState) (route : Route)
    (amountIn recipient : Nat) : RDState × Nat :=
  let amountOut := oracle route amountIn
  let bal := fun t h =>
    if t = route.tokenIn ∧ h = contractAddr then s.balances t h - amountIn
    else if t = route.tokenOut ∧ h = recipient then s.balances t h + amountOut
    else s.balances t h
  ({ s with balances := bal }, amountOut)

/-- The loop of `RouterDefense._executeMultiPathSwap`.  Returns the
final state, the accumulated `totalAmountOut`, and the (ghost) list of
per-leg input amounts actually spent. -/
def multiPathGo (oracle : VenueOracle) (amountIn recipient : Nat) :
    List Route → RDState → Nat → RDState × Nat × List Nat
  | [], s, _ => (s, 0, [])
  | route :: rest, s, remaining =>
    if remaining = 0 then (s, 0, [])
    else
      let routeAmountIn0 := amountIn * route.percentage / 10000
      let routeAmountIn := if routeAmountIn0 > remaining then remaining else routeAmountIn0
      if routeAmountIn = 0 then
        multiPathGo oracle amountIn recipient rest s remaining
      else
        let r1 := executeSingleRoute oracle s route routeAmountIn recipient
        let tail := multiPathGo oracle amountIn recipient rest r1.1
          (remaining - routeAmountIn)
        (tail.1, r1.2 + tail.2.1, routeAmountIn :: tail.2.2)

/-- Embeds `RouterDefense._executeMultiPathSwap` (result also carries the
ghost leg-amount list of the loop). -/
def executeMultiPathSwap (oracle : VenueOracle) (s : RDState) (p : SwapParams)
    (routes : List Route) : Except RDError (RDState × Nat × List Nat) :=
  if routes = [] then .error .noRoutesAvailable
  else .ok (multiPathGo oracle p.amountIn p.recipient routes s p.amountIn)

/-- Embeds `RouterDefense.protectedSwap`. -/
def protectedSwap (oracle : VenueOracle) (s : RDState) (sender msgValue : Nat)
    (p : SwapParams) (now : Nat) : Except RDError (RDState × Nat) :=
  if p.deadline < now then .error .expiredDeadline
  else if p.amountIn = 0 then .error .invalidAmount
  else match pullFunds s sender msgValue p with
  | .error e => .error e
  | .ok s1 =>
    if (getOptimalRoute s1 p.tokenIn p.tokenOut p.amountIn).2 < p.amountOutMin then
      .error .insufficientOutput
    else match executeMultiPathSwap oracle s1 p
        (getOptimalRoute s1 p.tokenIn p.tokenOut p.amountIn).1 with
    | .error e => .error e
    | .ok (s2, amountOut, _) =>
      if amountOut < p.amountOutMin then .error .slippageExceeded
      else .ok (s2, amountOut)

/-- The state directly after the reveal bookkeeping of
`revealAndExecute` (`order.revealed = true`, sender pushed onto
`revealedOrders`), before funds are pulled. -/
def revealMarked (s : RDState) (sender : Nat) : RDState :=
  { s with
    commitments := fun a =>
      if a = sender then { s.commitments sender with revealed := true }
      else s.commitments a,
    revealedOrders := s.revealedOrders ++ [sender] }

/-- Embeds `RouterDefense.revealAndExecute`.  Note that the source checks the
stored commitment, the `revealed`/`executed` flags and the commitment
deadline, but applies neither the `validReveal` modifier (so no
"reveal too early" lower bound) nor any slippage guard. -/
def revealAndExecute (oracle : VenueOracle) (s : RDState) (sender msgValue : Nat)
    (p : SwapParams) (nonce salt now : Nat) : Except RDError (RDState × Nat) :=
  if (s.commitments sender).commitment ≠ keccakCommit sender p nonce salt then
    .error .invalidReveal
  else if (s.commitments sender).revealed then .error .alreadyRevealed
  else if (s.commitments sender).executed then .error .alreadyExecuted
  else if (s.commitments sender).deadline < now then .error .commitmentExpired
  else
    match pullFunds (revealMarked s sender) sender msgValue p with
    | .error e => .error e
    | .ok s2 =>
      match executeMultiPathSwap oracle s2 p
          (getOptimalRoute s2 p.tokenIn p.tokenOut p.amountIn).1 with
      | .error e => .error e
      | .ok (s3, amountOut, _) =>
        .ok ({ s3 with commitments := fun a =>
          if a = sender then
            { s.commitments sender with revealed := true, executed := true }
          else s3.commitments a }, amountOut)

/-- The loop of `RouterDefense.batchExecuteRevealed`: walk the revealed
queue in order while fewer than `MAX_BATCH_SIZE` entries have been
executed this call; the `marked` accumulator mirrors the `executed`
counter (its length) and records which committers were marked. -/
def batchGo (now : Nat) : List Nat → (Nat → CommitRevealOrder) → List Nat →
    (Nat → CommitRevealOrder) × List Nat
  | [], cs, marked => (cs, marked)
  | user :: rest, cs, marked =>
    if marked.length < MAX_BATCH_SIZE then
      let order := cs user
      if order.revealed ∧ order.executed = false ∧ now ≤ order.deadline then
        batchGo now rest
          (fun a => if a = user then { order with executed := true } else cs a)
          (marked ++ [user])
      else batchGo now rest cs marked
    else (cs, marked)

/-- Embeds `RouterDefense.batchExecuteRevealed`.  When at least one entry was
executed the whole `revealedOrders` array is deleted
(`_clearRevealedOrders`).  The result carries the list of committers
marked this call (whose length is the source's `executed` counter). -/
def batchExecuteRevealed (s : RDState) (now : Nat) :
    Except RDError (RDState × List Nat) :=
  if s.revealedOrders = [] then .error .noRevealedOrders
  else
    let r := batchGo now s.revealedOrders s.commitments []
    .ok ({ s with
      commitments := r.1,
      revealedOrders := if 0 < r.2.length then [] else s.revealedOrders }, r.2)

/-- External calls into the contract, each tagged with the
`block.timestamp` (`now`) at which it runs. -/
inductive Op where
  | commit (sender : Nat) (h : Bytes32) (deadline now : Nat)
  | reveal (sender msgValue : Nat) (p : SwapParams) (nonce salt now : Nat)
  | pswap (sender msgValue : Nat) (p : SwapParams) (now : Nat)
  | batch (now : Nat)

/-- One external transaction against the contract.  A reverting call
(`.error`) leaves the state unchanged — EVM transaction atomicity. -/
def step (oracle : VenueOracle) (s : RDState) : Op → RDState
  | .commit sender h d now =>
    match commitOrder s sender h d now with
    | .ok s' => s'
    | .error _ => s
  | .reveal sender mv p nonce salt now =>
    match revealAndExecute oracle s sender mv p nonce salt now with
    | .ok r => r.1
    | .error _ => s
  | .pswap sender mv p now =>
    match protectedSwap oracle s sender mv p now with
    | .ok r => r.1
    | .error _ => s
  | .batch now =>
    match batchExecuteRevealed s now with
    | .ok r => r.1
    | .error _ => s

/-- Run a sequence of external transactions. -/
def runOps (oracle : VenueOracle) (s : RDState) (ops : List Op) : RDState :=
  ops.foldl (step oracle) s

def WETH : Nat := 0xC02aaA39b223FE8D0A0e5C4F27eAD9083C756Cc2

def USDC : Nat := 0xA0B86A33E6417C82bdDB8E35c5B14bBc6c3E6d7C

def DAI : Nat := 0x6B175474E89094C44Da98b954EedeAC495271d0F

def poolWETH_USDC : Nat := 0x8ad599c3A0ff1De082011EFDDc58f1908eb6e6D8

def poolWETH_DAI : Nat := 0xC2e9F25Be6257c210d7Adf0D4Cd6E3E881ba25f8

def poolUSDC_DAI : Nat := 0x5777d92f208679DB4b9778590Fa3CAB3aC9e2168

/-- The pool registry installed by the constructor
(`_initializePools`). -/
def initialPools (a b : Nat) : List Nat :=
  if (a = WETH ∧ b = USDC) ∨ (a = USDC ∧ b = WETH) then [poolWETH_USDC]
  else if (a = WETH ∧ b = DAI) ∨ (a = DAI ∧ b = WETH) then [poolWETH_DAI]
  else if (a = USDC ∧ b = DAI) ∨ (a = DAI ∧ b = USDC) then [poolUSDC_DAI]
  else []

/-- Contract state right after the constructor ran: empty commitment
mapping, empty used-hash set, empty revealed queue, constructor pools;
the external token books `bal` are arbitrary. -/
def initialState (bal : Nat → Nat → Nat) : RDState :=
  { commitments := fun _ => {},
    usedCommitments := fun _ => false,
    revealedOrders := [],
    tokenPairPools := initialPools,
    balances := bal }

end RouterDefense

namespace RouteOptimizer

/-- A candidate that `optimizeRoute` can actually allocate to: it
matches the requested pair and has a non-zero capacity cap. -/
def usablePool (tokenIn tokenOut amountIn : Nat) (p : PoolInfo) : Bool :=
  isValidPool p tokenIn tokenOut && (calculatePoolCapacity p amountIn != 0)

/-- Aggregate capacity of the first `m` usable candidates, in source
order. -/
def firstCaps (tokenIn tokenOut amountIn : Nat) (pools : List PoolInfo) (m : Nat) : Nat :=
  ((((pools.filter (usablePool tokenIn tokenOut amountIn)).take m).map
    (fun p => calculatePoolCapacity p amountIn)).sum)

/-- Aggregate capacity of all matching candidates with positive
capacity — the "total available capacity" of the specification. -/
def totalCapacity (tokenIn tokenOut amountIn : Nat) (pools : List PoolInfo) : Nat :=
  (((pools.filter (usablePool tokenIn tokenOut amountIn)).map
    (fun p => calculatePoolCapacity p amountIn)).sum)

/-- Modelled from the spec claim's words for the leg-output formula,
reading the fee as a fraction in basis points (denominator 10000):
deduct `amountIn·fee/10000`, then apply the 997/1000 slippage factor. -/
def specFeeAdjustedOutputBps (amountIn fee : Nat) : Nat :=
  (amountIn - amountIn * fee / 10000) * 997 / 1000

/-- The fee-adjusted constant-output model with the fee read in
millionths (hundredths of a basis point, the Uniswap fee convention) —
the formula the source actually computes. -/
def specFeeAdjustedOutputPpm (amountIn fee : Nat) : Nat :=
  (amountIn - amountIn * fee / 1000000) * 997 / 1000

end RouteOptimizer

section Scenarios

open RouterDefense RouteOptimizer

/-- Venue oracle used in concrete scenarios: each leg realises exactly
its input amount. -/
def oracle1 : VenueOracle := fun _ a => a

/-- Concrete swap request: 100 of token 2 into token 3, no minimum
output, recipient 1, request deadline 2000. -/
def p1 : SwapParams := ⟨2, 3, 100, 0, 1, 2000⟩

/-- Same request as `p1` but with an unattainable minimum output. -/
def pHigh : SwapParams := ⟨2, 3, 100, 1000000000, 1, 2000⟩

/-- Commitment hash for `p1` committed by address 1 with nonce 5 and
salt 6. -/
def h1 : Bytes32 := keccakCommit 1 p1 5 6

/-- Concrete pre-commit state: one pool (id 7) registered for the pair
(2, 3); address 1 holds 1000 of token 2. -/
def s0 : RDState :=
  { commitments := fun _ => {},
    usedCommitments := fun _ => false,
    revealedOrders := [],
    tokenPairPools := fun a b => if (a = 2 ∧ b = 3) ∨ (a = 3 ∧ b = 2) then [7] else [],
    balances := fun t hld => if t = 2 ∧ hld = 1 then 1000 else 0 }

/-- State after address 1 commits `h1` at time 1000 with commitment
deadline 1120. -/
def sA : RDState :=
  match commitOrder s0 1 h1 1120 1000 with
  | .ok s => s
  | .error _ => s0

/-- State after address 1 reveals (successfully, inside the window) at
time 1090. -/
def sR : RDState :=
  match revealAndExecute oracle1 sA 1 0 p1 5 6 1090 with
  | .ok r => r.1
  | .error _ => sA

/-- State after a fresh second commit by address 1 at time 1005, while
the commitment `h1` (deadline 1120) is still live. -/
def sB3 : RDState :=
  match commitOrder sA 1 (Bytes32.other 99) 1100 1005 with
  | .ok s => s
  | .error _ => sA

/-- Four identical candidate pools for the pair (2, 3), each with
liquidity 34, i.e. capacity cap 10. -/
def pools4 : List PoolInfo := List.replicate 4 ⟨7, 2, 3, 34, 30⟩

/-- The two candidates of the specification's worked example: capacity
caps 60 and 80. -/
def poolsAB : List PoolInfo := [⟨7, 2, 3, 200, 30⟩, ⟨8, 2, 3, 267, 30⟩]

/-- Concrete state with 21 committers (addresses 1‥21), each holding a
revealed, unexecuted commitment with deadline 100, all queued in
`revealedOrders`. -/
def s21 : RDState :=
  { commitments := fun a =>
      if 1 ≤ a ∧ a ≤ 21 then ⟨Bytes32.other a, 100, true, false⟩ else {},
    usedCommitments := fun _ => false,
    revealedOrders := List.range' 1 21,
    tokenPairPools := fun _ _ => [],
    balances := fun _ _ => 0 }

/-- State after one `batchExecuteRevealed` call on `s21` at time 50. -/
def s21b : RDState :=
  match batchExecuteRevealed s21 50 with
  | .ok r => r.1
  | .error _ => s21

/-- Committers marked during that call. -/
def s21marked : List Nat :=
  match batchExecuteRevealed s21 50 with
  | .ok r => r.2
  | .error _ => []

/-- Tiny batch scenario: one revealed, unexpired commitment by
address 1, queued. -/
def s7 : RDState :=
  { commitments := fun a => if a = 1 then ⟨Bytes32.other 1, 100, true, false⟩ else {},
    usedCommitments := fun _ => false,
    revealedOrders := [1],
    tokenPairPools := fun _ _ => [],
    balances := fun _ _ => 0 }

/-- State after `batchExecuteRevealed` on `s7` at time 50. -/
def s7b : RDState :=
  match batchExecuteRevealed s7 50 with
  | .ok r => r.1
  | .error _ => s7

/-- A single 100%-leg route for the pair (2, 3) through pool 7. -/
def route9 : Route := ⟨7, 2, 3, 10000⟩

/-- State after executing `p1` along `route9` from `s0`. -/
def s9 : RDState :=
  match executeMultiPathSwap oracle1 s0 p1 [route9] with
  | .ok r => r.1
  | .error _ => s0

end Scenarios

namespace RouterDefense

/-- States that agree on all contract storage except the balance
books (used for framing fund-moving helpers). -/
def FrameEq (s s' : RDState) : Prop :=
  s'.commitments = s.commitments
  ∧ s'.usedCommitments = s.usedCommitments
  ∧ s'.revealedOrders = s.revealedOrders
  ∧ s'.tokenPairPools = s.tokenPairPools

end RouterDefense

section ClosedTheorems

open RouterDefense RouteOptimizer

/-- C1: the reveal window's lower bound is not enforced by the code.
With MIN_DELAY = COMMIT_REVEAL_DELAY = 60 and a commitment made at time
1000 with deadline 1120, a reveal attempted at time 1030 — strictly
before `deadline − MIN_DELAY = 1060`, so inside the window the claim
says must fail with RevealTooEarlyError — succeeds (`revealAndExecute`
never applies the `validReveal` modifier), while a reveal at 1130
(past the deadline) does fail with CommitmentExpiredError. -/
theorem rd_C1_reveal_too_early_succeeds :
    commitOrder s0 1 h1 1120 1000 = .ok sA
    ∧ 1030 < 1120 - RouterDefense.COMMIT_REVEAL_DELAY
    ∧ (revealAndExecute oracle1 sA 1 0 p1 5 6 1030).isOk = true
    ∧ revealAndExecute oracle1 sA 1 0 p1 5 6 1130 = .error .commitmentExpired :=
  ⟨rfl, by decide, rfl, rfl⟩

/-- C2: one `batchExecuteRevealed` call on a backlog of 21 revealed,
unexpired commitments marks the first 20 Executed but then deletes the
whole queue, so entry 21 is left unexecuted and a second call reverts
with "no revealed orders" instead of draining it. -/
theorem rd_C2_backlog_dropped :
    s21.revealedOrders.length = 21
    ∧ s21marked.length = RouterDefense.MAX_BATCH_SIZE
    ∧ (s21b.commitments 20).executed = true
    ∧ (s21b.commitments 21).executed = false
    ∧ (s21b.commitments 21).revealed = true
    ∧ 50 ≤ (s21b.commitments 21).deadline
    ∧ s21b.revealedOrders = []
    ∧ batchExecuteRevealed s21b 50 = .error .noRevealedOrders :=
  ⟨rfl, rfl, by decide, by decide, by decide, by decide, rfl, rfl⟩

/-- C3 counterexample: while address 1 holds a live (Committed,
unexpired) commitment `h1` with deadline 1120, a fresh commit of a
different unused hash at time 1005 is accepted and overwrites the live
slot — `commitOrder` never rejects on an existing live commitment. -/
theorem rd_C3_counterexample :
    (sA.commitments 1).commitment = h1
    ∧ (sA.commitments 1).revealed = false
    ∧ (sA.commitments 1).executed = false
    ∧ 1005 ≤ (sA.commitments 1).deadline
    ∧ (commitOrder sA 1 (Bytes32.other 99) 1100 1005).isOk = true
    ∧ sB3.commitments 1 =
        { commitment := Bytes32.other 99, deadline := 1100,
          revealed := false, executed := false } :=
  ⟨rfl, rfl, rfl, by decide, rfl, rfl⟩

/-- C4 counterexample: with `amountIn = 100` and four matching
candidates of capacity 10 each (total available capacity 40), the
allocation stops at MAX_ROUTES = 3 legs summing to 30, not
`min(amountIn, total available capacity) = 40`, and its percentages
sum to 3000 bps, far outside the (entries − 1)-bps tolerance around
10000. -/
theorem ro_C4_counterexample :
    (0 : Nat) < 100
    ∧ (pools4.filter (usablePool 2 3 100)).length = 4
    ∧ totalCapacity 2 3 100 pools4 = 40
    ∧ min 100 (totalCapacity 2 3 100 pools4) = 40
    ∧ optimizeLegAmounts 2 3 100 pools4 = [10, 10, 10]
    ∧ (optimizeLegAmounts 2 3 100 pools4).sum = 30
    ∧ ((optimizeRoute 2 3 100 pools4).1.map Route.percentage).sum = 3000
    ∧ ¬((30 : Nat) = 40)
    ∧ ¬((10000 - (3 - 1) : Nat) ≤ 3000) := by
  refine ⟨by decide, by decide, by decide, by decide, rfl, by decide, by decide, by decide, by decide⟩

/-- C8 counterexample: the source deducts the pool fee as a fraction
in millionths, not basis points.  For `amountIn = 1000000` and the
standard fee value 3000, the source computes 994009 (0.3% fee), while
the claim's basis-point reading would give 697900 (30% fee). -/
theorem ro_C8_counterexample :
    calculateExpectedOutput ⟨7, 2, 3, 34, 3000⟩ 2 3 1000000 = 994009
    ∧ specFeeAdjustedOutputBps 1000000 3000 = 697900
    ∧ ¬((994009 : Nat) = 697900) := by
  refine ⟨by decide, by decide, by decide⟩

/-- C8 (amended): the per-venue capacity cap is 30% of reported
liquidity, `⌊L·3000/10000⌋`, and the leg output is the fee-adjusted
constant-output model with the fee read in millionths (hundredths of a
bps): `⌊(a − ⌊a·fee/10^6⌋)·997/1000⌋`; the output never exceeds the
input. -/
theorem ro_C8_capacity_and_output (pool : PoolInfo) (tokenIn tokenOut amountIn : Nat) :
    calculatePoolCapacity pool amountIn = pool.liquidity * 3000 / 10000
    ∧ calculateExpectedOutput pool tokenIn tokenOut amountIn
        = specFeeAdjustedOutputPpm amountIn pool.fee
    ∧ calculateExpectedOutput pool tokenIn tokenOut amountIn ≤ amountIn := by
  refine ⟨rfl, rfl, ?_⟩
  show (amountIn - amountIn * pool.fee / 1000000) * 997 / 1000 ≤ amountIn
  have h1 : (amountIn - amountIn * pool.fee / 1000000) * 997 ≤ 1000 * amountIn := by
    calc (amountIn - amountIn * pool.fee / 1000000) * 997
        ≤ amountIn * 1000 := Nat.mul_le_mul (Nat.sub_le _ _) (by omega)
      _ = 1000 * amountIn := Nat.mul_comm _ _
  exact Nat.div_le_of_le_mul h1

end ClosedTheorems

namespace RouterDefense

theorem FrameEq.rfl' {s : RDState} : FrameEq s s := ⟨rfl, rfl, rfl, rfl⟩

theorem FrameEq.trans' {s t u : RDState} (h1 : FrameEq s t) (h2 : FrameEq t u) :
    FrameEq s u := by
  obtain ⟨a1, b1, c1, d1⟩ := h1
  obtain ⟨a2, b2, c2, d2⟩ := h2
  exact ⟨a2.trans a1, b2.trans b1, c2.trans c1, d2.trans d1⟩

theorem transferToken_ok_frame {s s' : RDState} {token src dst amt : Nat}
    (h : transferToken s token src dst amt = .ok s') : FrameEq s s' := by
  unfold transferToken at h
  split at h
  · simp at h
  · simp only [Except.ok.injEq] at h
    subst h
    exact ⟨rfl, rfl, rfl, rfl⟩

theorem pullFunds_ok_frame {s s' : RDState} {sender mv : Nat} {p : SwapParams}
    (h : pullFunds s sender mv p = .ok s') : FrameEq s s' := by
  unfold pullFunds at h
  split at h
  · exact transferToken_ok_frame h
  · split at h
    · simp at h
    · exact transferToken_ok_frame h

theorem executeSingleRoute_frame (oracle : VenueOracle) (s : RDState) (route : Route)
    (a rcp : Nat) : FrameEq s (executeSingleRoute oracle s route a rcp).1 :=
  ⟨rfl, rfl, rfl, rfl⟩

theorem multiPathGo_frame (oracle : VenueOracle) (amountIn recipient : Nat) :
    ∀ (routes : List Route) (s : RDState) (rem : Nat),
      FrameEq s (multiPathGo oracle amountIn recipient routes s rem).1 := by
  intro routes
  induction routes with
  | nil => intro s rem; exact FrameEq.rfl'
  | cons r rest ih =>
    intro s rem
    simp only [multiPathGo]
    split
    · exact FrameEq.rfl'
    · generalize (if amountIn * r.percentage / 10000 > rem then rem
        else amountIn * r.percentage / 10000) = ra
      split
      · exact ih s rem
      · exact FrameEq.trans' (executeSingleRoute_frame oracle s r ra recipient) (ih _ _)

theorem multiPathGo_out_const (oracle : VenueOracle) (amountIn recipient : Nat) :
    ∀ (routes : List Route) (s t : RDState) (rem : Nat),
      (multiPathGo oracle amountIn recipient routes s rem).2
        = (multiPathGo oracle amountIn recipient routes t rem).2 := by
  intro routes
  induction routes with
  | nil => intro s t rem; rfl
  | cons r rest ih =>
    intro s t rem
    simp only [multiPathGo]
    split
    · rfl
    · generalize (if amountIn * r.percentage / 10000 > rem then rem
        else amountIn * r.percentage / 10000) = ra
      split
      · exact ih s t rem
      · have h := ih (executeSingleRoute oracle s r ra recipient).1
          (executeSingleRoute oracle t r ra recipient).1 (rem - ra)
        simp only [Prod.mk.injEq]
        constructor
        · exact congrArg (fun x => (executeSingleRoute oracle s r ra recipient).2 + x.1) h
        · exact congrArg (fun x => ra :: x.2) h

theorem multiPathGo_legs_le (oracle : VenueOracle) (amountIn recipient : Nat) :
    ∀ (routes : List Route) (s : RDState) (rem : Nat),
      ((multiPathGo oracle amountIn recipient routes s rem).2.2).sum ≤ rem := by
  intro routes
  induction routes with
  | nil => intro s rem; simp [multiPathGo]
  | cons r rest ih =>
    intro r0 rem
    simp only [multiPathGo]
    split
    · simp
    · have hle : (if amountIn * r.percentage / 10000 > rem then rem
          else amountIn * r.percentage / 10000) ≤ rem := by
        split <;> omega
      revert hle
      generalize (if amountIn * r.percentage / 10000 > rem then rem
        else amountIn * r.percentage / 10000) = ra
      intro hle
      split
      · exact ih r0 rem
      · simp only [List.sum_cons]
        have ht := ih (executeSingleRoute oracle r0 r ra recipient).1 (rem - ra)
        omega

end RouterDefense

section C9Theorems

open RouterDefense RouteOptimizer

/-- C9: for every route allocation and every request, the per-leg
input amounts actually spent by `_executeMultiPathSwap` — each leg
`⌊amountIn·percentage/10000⌋` capped by the unspent remainder — sum to
at most `amountIn`, so the executor never spends more than it pulled
from the caller. -/
theorem rd_C9_legs_bounded (oracle : VenueOracle) (s : RDState) (p : SwapParams)
    (routes : List Route) (s' : RDState) (total : Nat) (legs : List Nat)
    (h : executeMultiPathSwap oracle s p routes = .ok (s', total, legs)) :
    legs.sum ≤ p.amountIn := by
  unfold executeMultiPathSwap at h
  split at h
  · simp at h
  · simp only [Except.ok.injEq] at h
    have := multiPathGo_legs_le oracle p.amountIn p.recipient routes s p.amountIn
    rw [h] at this
    exact this

/-- Witness for C9 at a concrete input: a single 100% leg spends
exactly the pulled 100 tokens. -/
theorem rd_C9_legs_bounded_witness : ([100] : List Nat).sum ≤ p1.amountIn :=
  rd_C9_legs_bounded oracle1 s0 p1 [route9] s9 100 [100] rfl

end C9Theorems

namespace RouterDefense

theorem commitOrder_ok_dest {s s1 : RDState} {sender : Nat} {h : Bytes32} {d now : Nat}
    (hc : commitOrder s sender h d now = .ok s1) :
    h ≠ Bytes32.zero
    ∧ s.usedCommitments h = false
    ∧ now + COMMIT_REVEAL_DELAY < d
    ∧ d ≤ now + 3600
    ∧ s1.commitments sender =
        { commitment := h, deadline := d, revealed := false, executed := false }
    ∧ (∀ h', s1.usedCommitments h' = if h' = h then true else s.usedCommitments h')
    ∧ (∀ a, a ≠ sender → s1.commitments a = s.commitments a)
    ∧ s1.revealedOrders = s.revealedOrders
    ∧ s1.tokenPairPools = s.tokenPairPools
    ∧ s1.balances = s.balances := by
  unfold commitOrder at hc
  split_ifs at hc with h1 h2 h3 h4 <;>
    simp only [reduceCtorEq, Except.ok.injEq] at hc
  subst hc
  refine ⟨h1, by simpa using h2, ?_, by omega, by simp, fun h' => rfl, ?_, rfl, rfl, rfl⟩
  · simp only [COMMIT_REVEAL_DELAY] at h3 ⊢; omega
  · intro a ha; simp [ha]

theorem executeMultiPathSwap_ok_frame {oracle : VenueOracle} {s : RDState}
    {p : SwapParams} {routes : List Route} {x : RDState × Nat × List Nat}
    (h : executeMultiPathSwap oracle s p routes = .ok x) : FrameEq s x.1 := by
  unfold executeMultiPathSwap at h
  split at h
  · simp at h
  · simp only [Except.ok.injEq] at h
    subst h
    exact multiPathGo_frame oracle p.amountIn p.recipient routes s p.amountIn

theorem protectedSwap_ok_frame {oracle : VenueOracle} {s : RDState} {sender mv : Nat}
    {p : SwapParams} {now : Nat} {r : RDState × Nat}
    (h : protectedSwap oracle s sender mv p now = .ok r) : FrameEq s r.1 := by
  unfold protectedSwap at h
  split at h
  · simp at h
  · split at h
    · simp at h
    · cases hpull : pullFunds s sender mv p with
      | error e => rw [hpull] at h; simp at h
      | ok s1 =>
        rw [hpull] at h
        dsimp only at h
        split at h
        · simp at h
        · cases hmp : executeMultiPathSwap oracle s1 p
            (getOptimalRoute s1 p.tokenIn p.tokenOut p.amountIn).1 with
          | error e => rw [hmp] at h; simp at h
          | ok x =>
            obtain ⟨s2, out, legs⟩ := x
            rw [hmp] at h
            dsimp only at h
            split at h
            · simp at h
            · simp only [Except.ok.injEq] at h
              subst h
              exact FrameEq.trans' (pullFunds_ok_frame hpull)
                (executeMultiPathSwap_ok_frame hmp)

theorem revealAndExecute_ok_dest {oracle : VenueOracle} {s : RDState} {sender mv : Nat}
    {p : SwapParams} {nonce salt now : Nat} {r : RDState × Nat}
    (h : revealAndExecute oracle s sender mv p nonce salt now = .ok r) :
    r.1.usedCommitments = s.usedCommitments
    ∧ r.1.commitments sender =
        { commitment := keccakCommit sender p nonce salt,
          deadline := (s.commitments sender).deadline,
          revealed := true, executed := true }
    ∧ r.1.tokenPairPools = s.tokenPairPools := by
  unfold revealAndExecute at h
  split at h
  · simp at h
  · split at h
    · simp at h
    · split at h
      · simp at h
      · split at h
        · simp at h
        · rename_i hne hrev hexec hdl
          cases hpull : pullFunds (revealMarked s sender) sender mv p with
          | error e => rw [hpull] at h; simp at h
          | ok s2 =>
            rw [hpull] at h
            dsimp only at h
            cases hmp : executeMultiPathSwap oracle s2 p
                (getOptimalRoute s2 p.tokenIn p.tokenOut p.amountIn).1 with
            | error e => rw [hmp] at h; simp at h
            | ok x =>
              obtain ⟨s3, out, legs⟩ := x
              rw [hmp] at h
              dsimp only at h
              simp only [Except.ok.injEq] at h
              subst h
              have hfp := pullFunds_ok_frame hpull
              have hfm := executeMultiPathSwap_ok_frame hmp
              have hcomm : (s.commitments sender).commitment
                  = keccakCommit sender p nonce salt := by
                by_contra hx
                exact hne hx
              refine ⟨?_, ?_, ?_⟩
              · show s3.usedCommitments = s.usedCommitments
                rw [hfm.2.1, hfp.2.1]
                rfl
              · show (if sender = sender then _ else s3.commitments sender) = _
                rw [if_pos rfl, hcomm]
              · show s3.tokenPairPools = s.tokenPairPools
                rw [hfm.2.2.2, hfp.2.2.2]
                rfl

theorem batchExecuteRevealed_ok_dest {s : RDState} {now : Nat} {x : RDState × List Nat}
    (h : batchExecuteRevealed s now = .ok x) :
    x.1.usedCommitments = s.usedCommitments
    ∧ x.1.balances = s.balances
    ∧ x.1.tokenPairPools = s.tokenPairPools
    ∧ x.1.commitments = (batchGo now s.revealedOrders s.commitments []).1
    ∧ x.2 = (batchGo now s.revealedOrders s.commitments []).2 := by
  unfold batchExecuteRevealed at h
  split at h
  · simp at h
  · simp only [Except.ok.injEq] at h
    subst h
    exact ⟨rfl, rfl, rfl, rfl, rfl⟩

theorem step_used_mono {oracle : VenueOracle} {s : RDState} {op : Op} {h : Bytes32}
    (hu : s.usedCommitments h = true) : (step oracle s op).usedCommitments h = true := by
  cases op with
  | commit sender c d now =>
    simp only [step]
    cases hc : commitOrder s sender c d now with
    | error e => exact hu
    | ok s1 =>
      rw [(commitOrder_ok_dest hc).2.2.2.2.2.1 h]
      split
      · rfl
      · exact hu
  | reveal sender mv p nonce salt now =>
    simp only [step]
    cases hr : revealAndExecute oracle s sender mv p nonce salt now with
    | error e => exact hu
    | ok r => rw [(revealAndExecute_ok_dest hr).1]; exact hu
  | pswap sender mv p now =>
    simp only [step]
    cases hp : protectedSwap oracle s sender mv p now with
    | error e => exact hu
    | ok r => rw [(protectedSwap_ok_frame hp).2.1]; exact hu
  | batch now =>
    simp only [step]
    cases hb : batchExecuteRevealed s now with
    | error e => exact hu
    | ok x => rw [(batchExecuteRevealed_ok_dest hb).1]; exact hu

theorem step_used_zero {oracle : VenueOracle} {s : RDState} {op : Op}
    (hu : s.usedCommitments Bytes32.zero = false) :
    (step oracle s op).usedCommitments Bytes32.zero = false := by
  cases op with
  | commit sender c d now =>
    simp only [step]
    cases hc : commitOrder s sender c d now with
    | error e => exact hu
    | ok s1 =>
      obtain ⟨hcz, _, _, _, _, hused, _⟩ := commitOrder_ok_dest hc
      rw [hused Bytes32.zero]
      rw [if_neg (fun hx => hcz hx.symm)]
      exact hu
  | reveal sender mv p nonce salt now =>
    simp only [step]
    cases hr : revealAndExecute oracle s sender mv p nonce salt now with
    | error e => exact hu
    | ok r => rw [(revealAndExecute_ok_dest hr).1]; exact hu
  | pswap sender mv p now =>
    simp only [step]
    cases hp : protectedSwap oracle s sender mv p now with
    | error e => exact hu
    | ok r => rw [(protectedSwap_ok_frame hp).2.1]; exact hu
  | batch now =>
    simp only [step]
    cases hb : batchExecuteRevealed s now with
    | error e => exact hu
    | ok x => rw [(batchExecuteRevealed_ok_dest hb).1]; exact hu

theorem runOps_used_mono {oracle : VenueOracle} {h : Bytes32} :
    ∀ (ops : List Op) (s : RDState), s.usedCommitments h = true →
      (runOps oracle s ops).usedCommitments h = true := by
  intro ops
  induction ops with
  | nil => intro s hu; exact hu
  | cons op rest ih =>
    intro s hu
    exact ih (step oracle s op) (step_used_mono hu)

theorem runOps_used_zero {oracle : VenueOracle} :
    ∀ (ops : List Op) (s : RDState), s.usedCommitments Bytes32.zero = false →
      (runOps oracle s ops).usedCommitments Bytes32.zero = false := by
  intro ops
  induction ops with
  | nil => intro s hu; exact hu
  | cons op rest ih =>
    intro s hu
    exact ih (step oracle s op) (step_used_zero hu)

end RouterDefense

section C10C5Theorems

open RouterDefense RouteOptimizer

/-- C10: committing the all-zero hash fails with the "invalid
commitment" error for every state, sender, deadline and time (so the
revert stores nothing), and consequently the zero hash is never marked
used in any state reachable from the constructor state by any sequence
of external calls. -/
theorem rd_C10_zero_hash_rejected :
    (∀ (s : RDState) (sender d now : Nat),
      commitOrder s sender Bytes32.zero d now = .error .invalidCommitment)
    ∧ (∀ (bal : Nat → Nat → Nat) (oracle : VenueOracle) (ops : List Op),
      (runOps oracle (initialState bal) ops).usedCommitments Bytes32.zero = false) := by
  constructor
  · intro s sender d now
    unfold commitOrder
    rw [if_pos rfl]
  · intro bal oracle ops
    exact runOps_used_zero ops _ rfl

/-- C5: global replay protection.  Once `commitOrder h` succeeds for
some address, any later `commitOrder` of the same hash — by any
address, with any deadline, after any sequence of further external
calls — fails with the "commitment used" error; and once a commitment
is successfully revealed, a second reveal of the same commitment fails
with the "already revealed" error. -/
theorem rd_C5_replay_impossible
    (oracle : VenueOracle) (s : RDState) (sender : Nat) (h : Bytes32) (d now : Nat)
    (s1 : RDState) (hc : commitOrder s sender h d now = .ok s1) :
    (∀ (ops : List Op) (sender' d' now' : Nat),
      commitOrder (runOps oracle s1 ops) sender' h d' now' = .error .commitmentUsed)
    ∧ (∀ (oracle2 : VenueOracle) (s2 : RDState) (sender2 mv : Nat) (p : SwapParams)
        (nonce salt now2 : Nat) (r : RDState × Nat),
        revealAndExecute oracle2 s2 sender2 mv p nonce salt now2 = .ok r →
        ∀ (mv' now3 : Nat),
          revealAndExecute oracle2 r.1 sender2 mv' p nonce salt now3
            = .error .alreadyRevealed) := by
  constructor
  · intro ops sender' d' now'
    obtain ⟨hz, _, _, _, _, hused, _⟩ := commitOrder_ok_dest hc
    have h1 : s1.usedCommitments h = true := by rw [hused h]; simp
    have h2 := @runOps_used_mono oracle h ops s1 h1
    unfold commitOrder
    rw [if_neg hz, h2]
    rfl
  · intro oracle2 s2 sender2 mv p nonce salt now2 r hrev mv' now3
    obtain ⟨hused, hcomm, hpools⟩ := revealAndExecute_ok_dest hrev
    unfold revealAndExecute
    rw [hcomm]
    rw [if_neg (fun hx => hx rfl)]
    rfl

/-- Witness for C5: after address 1 commits `h1` and reveals, a second
commit of `h1` by address 2 fails with "commitment used" and a second
reveal by address 1 fails with "already revealed". -/
theorem rd_C5_replay_impossible_witness :
    commitOrder (runOps oracle1 sA []) 2 h1 1120 1000 = .error .commitmentUsed
    ∧ revealAndExecute oracle1 sR 1 0 p1 5 6 1200 = .error .alreadyRevealed := by
  have H := rd_C5_replay_impossible oracle1 s0 1 h1 1120 1000 sA rfl
  refine ⟨H.1 [] 2 1120 1000, ?_⟩
  have hrev : revealAndExecute oracle1 sA 1 0 p1 5 6 1090 = .ok (sR, 100) := rfl
  exact H.2 oracle1 sA 1 0 p1 5 6 1090 (sR, 100) hrev 0 1200

end C10C5Theorems

section C3Theorems

open RouterDefense

/-- C3 (amended): `commitOrder` succeeds exactly when the hash is
nonzero and never used and the deadline lies in
`(now + COMMIT_REVEAL_DELAY, now + 3600]` — independently of any live
commitment the caller holds — and on success the caller's slot is
overwritten with the fresh commitment.  Per-committer liveness is not
checked; uniqueness is per hash only. -/
theorem rd_C3_commit_overwrites (s : RDState) (sender : Nat) (h : Bytes32) (d now : Nat) :
    ((commitOrder s sender h d now).isOk = true ↔
      (h ≠ Bytes32.zero ∧ s.usedCommitments h = false
        ∧ now + COMMIT_REVEAL_DELAY < d ∧ d ≤ now + 3600))
    ∧ (∀ s1, commitOrder s sender h d now = .ok s1 →
        s1.commitments sender =
          { commitment := h, deadline := d, revealed := false, executed := false }) := by
  constructor
  · constructor
    · intro hok
      cases hc : commitOrder s sender h d now with
      | error e => rw [hc] at hok; simp [Except.isOk, Except.toBool] at hok
      | ok s1 =>
        obtain ⟨a, b, c, d', _⟩ := commitOrder_ok_dest hc
        exact ⟨a, b, c, d'⟩
    · rintro ⟨h1, h2, h3, h4⟩
      unfold commitOrder
      split_ifs with g1 g2 g3 g4
      · exact absurd g1 h1
      · rw [h2] at g2; exact absurd g2 (by simp)
      · exfalso; simp only [COMMIT_REVEAL_DELAY] at g3 h3; omega
      · exfalso; omega
      · rfl
  · intro s1 hc
    exact (commitOrder_ok_dest hc).2.2.2.2.1

/-- Witness for C3's amended claim: the concrete overwrite of the live
commitment `h1` held by address 1. -/
theorem rd_C3_commit_overwrites_witness :
    (commitOrder sA 1 (Bytes32.other 99) 1100 1005).isOk = true
    ∧ sB3.commitments 1 =
        { commitment := Bytes32.other 99, deadline := 1100,
          revealed := false, executed := false } := by
  have H := rd_C3_commit_overwrites sA 1 (Bytes32.other 99) 1100 1005
  exact ⟨H.1.mpr ⟨by decide, by decide, by decide, by decide⟩, H.2 sB3 rfl⟩

end C3Theorems

namespace RouterDefense

theorem batchGo_length (now : Nat) :
    ∀ (l : List Nat) (cs : Nat → CommitRevealOrder) (m : List Nat),
      m.length ≤ MAX_BATCH_SIZE → ((batchGo now l cs m).2).length ≤ MAX_BATCH_SIZE := by
  intro l
  induction l with
  | nil => intro cs m hm; exact hm
  | cons u rest ih =>
    intro cs m hm
    simp only [batchGo]
    split
    · rename_i hlt
      split
      · apply ih
        simp only [List.length_append, List.length_cons, List.length_nil]
        omega
      · exact ih cs m hm
    · exact hm

theorem batchGo_sub (now : Nat) :
    ∀ (l : List Nat) (cs : Nat → CommitRevealOrder) (m : List Nat) (a : Nat),
      a ∈ m → a ∈ (batchGo now l cs m).2 := by
  intro l
  induction l with
  | nil => intro cs m a ha; exact ha
  | cons u rest ih =>
    intro cs m a ha
    simp only [batchGo]
    split
    · split
      · exact ih _ _ a (List.mem_append_left _ ha)
      · exact ih cs m a ha
    · exact ha

theorem batchGo_untouched (now : Nat) :
    ∀ (l : List Nat) (cs : Nat → CommitRevealOrder) (m : List Nat) (a : Nat),
      (cs a).deadline < now → (batchGo now l cs m).1 a = cs a := by
  intro l
  induction l with
  | nil => intro cs m a ha; rfl
  | cons u rest ih =>
    intro cs m a ha
    simp only [batchGo]
    split
    · split
      · rename_i hcond
        have hau : a ≠ u := by
          intro hx
          subst hx
          exact absurd hcond.2.2 (by omega)
        rw [ih _ _ a (by rw [if_neg hau]; exact ha)]
        simp [hau]
      · exact ih cs m a ha
    · rfl

theorem batchGo_flip (now : Nat) :
    ∀ (l : List Nat) (cs : Nat → CommitRevealOrder) (m : List Nat) (a : Nat),
      ((batchGo now l cs m).1 a).executed = true →
      (cs a).executed = true ∨ a ∈ (batchGo now l cs m).2 := by
  intro l
  induction l with
  | nil => intro cs m a ha; exact Or.inl ha
  | cons u rest ih =>
    intro cs m a ha
    simp only [batchGo] at ha ⊢
    split at ha
    · rename_i hlt
      split at ha
      · rename_i hcond
        rcases ih _ _ a ha with h2 | h2
        · by_cases hau : a = u
          · subst hau
            right
            rw [if_pos hlt, if_pos hcond]
            exact batchGo_sub now rest _ _ a (List.mem_append_right _ (by simp))
          · left
            simpa [hau] using h2
        · right
          rw [if_pos hlt, if_pos hcond]
          exact h2
      · rename_i hcond
        rcases ih cs m a ha with h2 | h2
        · exact Or.inl h2
        · right
          rw [if_pos hlt, if_neg hcond]
          exact h2
    · exact Or.inl ha

end RouterDefense

section C7Theorems

open RouterDefense

/-- C7: a single `batchExecuteRevealed` call marks at most
MAX_BATCH_SIZE (20) entries Executed — the marked list is bounded, any
set of newly-Executed committers injects into it — and never marks an
entry whose deadline has passed: expired commitments are returned
bit-for-bit unchanged. -/
theorem rd_C7_batch_bounds {s : RDState} {now : Nat} {s' : RDState} {marked : List Nat}
    (h : batchExecuteRevealed s now = .ok (s', marked)) :
    marked.length ≤ MAX_BATCH_SIZE
    ∧ (∀ a, (s.commitments a).deadline < now → s'.commitments a = s.commitments a)
    ∧ (∀ a, (s'.commitments a).executed = true →
        (s.commitments a).executed = true ∨ a ∈ marked)
    ∧ (∀ A : Finset Nat,
        (∀ a ∈ A, (s'.commitments a).executed = true
          ∧ (s.commitments a).executed = false) → A.card ≤ MAX_BATCH_SIZE) := by
  obtain ⟨-, -, -, hcs0, hm0⟩ := batchExecuteRevealed_ok_dest h
  have hcs : s'.commitments = (batchGo now s.revealedOrders s.commitments []).1 := hcs0
  have hm : marked = (batchGo now s.revealedOrders s.commitments []).2 := hm0
  have hlen : marked.length ≤ MAX_BATCH_SIZE := by
    rw [hm]
    exact batchGo_length now s.revealedOrders s.commitments [] (by simp [MAX_BATCH_SIZE])
  refine ⟨hlen, ?_, ?_, ?_⟩
  · intro a ha
    rw [hcs]
    exact batchGo_untouched now s.revealedOrders s.commitments [] a ha
  · intro a ha
    rw [hcs] at ha
    rcases batchGo_flip now s.revealedOrders s.commitments [] a ha with h2 | h2
    · exact Or.inl h2
    · right; rw [hm]; exact h2
  · intro A hA
    have hsub : A ⊆ marked.toFinset := by
      intro a ha
      obtain ⟨h1, h2⟩ := hA a ha
      rw [hcs] at h1
      rcases batchGo_flip now s.revealedOrders s.commitments [] a h1 with h3 | h3
      · rw [h2] at h3; exact absurd h3 (by simp)
      · rw [List.mem_toFinset, hm]; exact h3
    calc A.card ≤ marked.toFinset.card := Finset.card_le_card hsub
      _ ≤ marked.length := marked.toFinset_card_le
      _ ≤ MAX_BATCH_SIZE := hlen

/-- Witness for C7 on the one-entry scenario `s7`: the call marks
exactly address 1, within the batch bound, leaves the (expired,
default) entry of address 2 unchanged, and the newly-executed set
`{1}` respects the bound. -/
theorem rd_C7_batch_bounds_witness :
    ([1] : List Nat).length ≤ MAX_BATCH_SIZE
    ∧ s7b.commitments 2 = s7.commitments 2
    ∧ ((s7b.commitments 1).executed = true →
        (s7.commitments 1).executed = true ∨ 1 ∈ ([1] : List Nat))
    ∧ ({1} : Finset Nat).card ≤ MAX_BATCH_SIZE := by
  have H := @rd_C7_batch_bounds s7 50 s7b [1] rfl
  refine ⟨H.1, H.2.1 2 (by decide), H.2.2.1 1, H.2.2.2 {1} ?_⟩
  intro a ha
  rw [Finset.mem_singleton] at ha
  subst ha
  exact ⟨by decide, by decide⟩

end C7Theorems

namespace RouteOptimizer

theorem optimizeGo_nil_out (tokenIn tokenOut amountIn : Nat) :
    ∀ (pools : List PoolInfo) (k r : Nat),
      (optimizeGo tokenIn tokenOut amountIn pools k r).1 = [] →
      (optimizeGo tokenIn tokenOut amountIn pools k r).2 = 0 := by
  intro pools
  induction pools with
  | nil => intro k r _; rfl
  | cons pool rest ih =>
    intro k r hnil
    simp only [optimizeGo] at hnil ⊢
    by_cases hloop : k < MAX_ROUTES ∧ 0 < r
    · rw [if_pos hloop] at hnil ⊢
      by_cases hvalid : isValidPool pool tokenIn tokenOut = true
      · rw [if_pos hvalid] at hnil ⊢
        revert hnil
        generalize (if r > calculatePoolCapacity pool amountIn
          then calculatePoolCapacity pool amountIn else r) = ra
        intro hnil
        by_cases hz : ra = 0
        · rw [if_pos hz] at hnil ⊢
          exact ih _ _ hnil
        · rw [if_neg hz] at hnil
          simp at hnil
      · rw [if_neg hvalid] at hnil ⊢
        exact ih _ _ hnil
    · rw [if_neg hloop]

theorem optimizeRoute_nil_out (tokenIn tokenOut amountIn : Nat) (pools : List PoolInfo)
    (h : (optimizeRoute tokenIn tokenOut amountIn pools).1 = []) :
    (optimizeRoute tokenIn tokenOut amountIn pools).2 = 0 := by
  unfold optimizeRoute at h ⊢
  exact optimizeGo_nil_out tokenIn tokenOut amountIn pools 0 amountIn
    (List.map_eq_nil_iff.mp h)

end RouteOptimizer

namespace RouterDefense

theorem getOptimalRoute_pools_eq {s t : RDState}
    (h : t.tokenPairPools = s.tokenPairPools) (tokenIn tokenOut amountIn : Nat) :
    getOptimalRoute t tokenIn tokenOut amountIn
      = getOptimalRoute s tokenIn tokenOut amountIn := by
  unfold getOptimalRoute getAvailablePools
  rw [h]

end RouterDefense

section C6Theorems

open RouterDefense RouteOptimizer

/-- C6: whenever `minAmountOut` exceeds the output the execution would
actually realise (given the venue oracle), `protectedSwap` aborts with
one of its two slippage guards — the pre-execution expected-output
check ("insufficient output") or the post-execution realized-output
check ("slippage exceeded") — and, the call being a revert, the state
(in particular the caller's token balance) is unchanged. -/
theorem rd_C6_slippage_abort (oracle : VenueOracle) (s : RDState) (sender msgValue : Nat)
    (p : SwapParams) (now : Nat)
    (hdl : now ≤ p.deadline)
    (hamt : 0 < p.amountIn)
    (hfunds : if p.tokenIn ≠ 0 then p.amountIn ≤ s.balances p.tokenIn sender
      else msgValue = p.amountIn ∧ msgValue ≤ s.balances 0 sender)
    (hmin : (multiPathGo oracle p.amountIn p.recipient
        (getOptimalRoute s p.tokenIn p.tokenOut p.amountIn).1 s p.amountIn).2.1
      < p.amountOutMin) :
    ((protectedSwap oracle s sender msgValue p now = .error .insufficientOutput)
      ∨ (protectedSwap oracle s sender msgValue p now = .error .slippageExceeded))
    ∧ step oracle s (Op.pswap sender msgValue p now) = s := by
  have ⟨s1, hpull⟩ : ∃ s1, pullFunds s sender msgValue p = .ok s1 := by
    unfold pullFunds transferToken
    by_cases ht : p.tokenIn ≠ 0
    · rw [if_pos ht] at hfunds ⊢
      rw [if_neg (by omega : ¬ s.balances p.tokenIn sender < p.amountIn)]
      exact ⟨_, rfl⟩
    · rw [if_neg ht] at hfunds ⊢
      rw [if_neg (fun hx => hx hfunds.1)]
      rw [if_neg (by omega : ¬ s.balances 0 sender < msgValue)]
      exact ⟨_, rfl⟩
  have hpools := getOptimalRoute_pools_eq (pullFunds_ok_frame hpull).2.2.2
    p.tokenIn p.tokenOut p.amountIn
  have main : (protectedSwap oracle s sender msgValue p now = .error .insufficientOutput)
      ∨ (protectedSwap oracle s sender msgValue p now = .error .slippageExceeded) := by
    unfold protectedSwap
    rw [if_neg (by omega : ¬ p.deadline < now)]
    rw [if_neg (by omega : ¬ p.amountIn = 0)]
    rw [hpull]
    dsimp only
    rw [hpools]
    by_cases hins : (getOptimalRoute s p.tokenIn p.tokenOut p.amountIn).2 < p.amountOutMin
    · left
      rw [if_pos hins]
    · right
      rw [if_neg hins]
      have hroutes : (getOptimalRoute s p.tokenIn p.tokenOut p.amountIn).1 ≠ [] := by
        intro hr
        have h0 := optimizeRoute_nil_out p.tokenIn p.tokenOut p.amountIn
          (getAvailablePools s p.tokenIn p.tokenOut) hr
        have : (getOptimalRoute s p.tokenIn p.tokenOut p.amountIn).2 = 0 := h0
        omega
      unfold executeMultiPathSwap
      rw [if_neg hroutes]
      dsimp only
      have htot : (multiPathGo oracle p.amountIn p.recipient
            (getOptimalRoute s p.tokenIn p.tokenOut p.amountIn).1 s1 p.amountIn).2
          = (multiPathGo oracle p.amountIn p.recipient
            (getOptimalRoute s p.tokenIn p.tokenOut p.amountIn).1 s p.amountIn).2 :=
        multiPathGo_out_const oracle p.amountIn p.recipient _ s1 s p.amountIn
      have hlt : (multiPathGo oracle p.amountIn p.recipient
          (getOptimalRoute s p.tokenIn p.tokenOut p.amountIn).1 s1 p.amountIn).2.1
          < p.amountOutMin := by
        rw [htot]; exact hmin
      rw [if_pos hlt]
  refine ⟨main, ?_⟩
  simp only [step]
  rcases main with h | h <;> rw [h]

/-- Witness for C6: with `pHigh` demanding a billion output units while
the realised output is 100, `protectedSwap` aborts by a slippage guard
and the state is unchanged. -/
theorem rd_C6_slippage_abort_witness :
    ((protectedSwap oracle1 s0 1 0 pHigh 1000 = .error .insufficientOutput)
      ∨ (protectedSwap oracle1 s0 1 0 pHigh 1000 = .error .slippageExceeded))
    ∧ step oracle1 s0 (Op.pswap 1 0 pHigh 1000) = s0 :=
  rd_C6_slippage_abort oracle1 s0 1 0 pHigh 1000 (by decide) (by decide)
    (by decide) (by decide)

end C6Theorems

namespace RouteOptimizer

theorem firstCaps_zero (tokenIn tokenOut amountIn : Nat) (pools : List PoolInfo) :
    firstCaps tokenIn tokenOut amountIn pools 0 = 0 := by
  simp [firstCaps]

theorem firstCaps_cons_usable {tokenIn tokenOut amountIn : Nat} {pool : PoolInfo}
    {rest : List PoolInfo} {m : Nat}
    (h : usablePool tokenIn tokenOut amountIn pool = true) :
    firstCaps tokenIn tokenOut amountIn (pool :: rest) (m + 1)
      = calculatePoolCapacity pool amountIn
        + firstCaps tokenIn tokenOut amountIn rest m := by
  simp [firstCaps, List.filter_cons, h]

theorem firstCaps_cons_unusable {tokenIn tokenOut amountIn : Nat} {pool : PoolInfo}
    {rest : List PoolInfo} {m : Nat}
    (h : usablePool tokenIn tokenOut amountIn pool = false) :
    firstCaps tokenIn tokenOut amountIn (pool :: rest) m
      = firstCaps tokenIn tokenOut amountIn rest m := by
  simp [firstCaps, List.filter_cons, h]

theorem optimizeGo_length (tokenIn tokenOut amountIn : Nat) :
    ∀ (pools : List PoolInfo) (k r : Nat),
      ((optimizeGo tokenIn tokenOut amountIn pools k r).1).length ≤ MAX_ROUTES - k := by
  intro pools
  induction pools with
  | nil => intro k r; simp [optimizeGo]
  | cons pool rest ih =>
    intro k r
    simp only [optimizeGo]
    by_cases hloop : k < MAX_ROUTES ∧ 0 < r
    · rw [if_pos hloop]
      by_cases hvalid : isValidPool pool tokenIn tokenOut = true
      · rw [if_pos hvalid]
        generalize (if r > calculatePoolCapacity pool amountIn
          then calculatePoolCapacity pool amountIn else r) = ra
        by_cases hz : ra = 0
        · rw [if_pos hz]
          exact ih k r
        · rw [if_neg hz]
          simp only [List.length_cons]
          have h2 := ih (k + 1) (r - ra)
          have hk := hloop.1
          simp only [MAX_ROUTES] at hk h2 ⊢
          omega
      · rw [if_neg hvalid]
        exact ih k r
    · rw [if_neg hloop]
      simp

theorem optimizeGo_sum (tokenIn tokenOut amountIn : Nat) :
    ∀ (pools : List PoolInfo) (k r : Nat),
      (((optimizeGo tokenIn tokenOut amountIn pools k r).1).map Prod.snd).sum
        = min r (firstCaps tokenIn tokenOut amountIn pools (MAX_ROUTES - k)) := by
  intro pools
  induction pools with
  | nil => intro k r; simp [optimizeGo, firstCaps]
  | cons pool rest ih =>
    intro k r
    simp only [optimizeGo]
    by_cases hloop : k < MAX_ROUTES ∧ 0 < r
    · obtain ⟨hk, hr⟩ := hloop
      rw [if_pos ⟨hk, hr⟩]
      have hm : MAX_ROUTES - k = (MAX_ROUTES - (k + 1)) + 1 := by
        simp only [MAX_ROUTES] at hk ⊢
        omega
      by_cases hvalid : isValidPool pool tokenIn tokenOut = true
      · rw [if_pos hvalid]
        by_cases hcap : calculatePoolCapacity pool amountIn = 0
        · have hu : usablePool tokenIn tokenOut amountIn pool = false := by
            simp [usablePool, hcap]
          rw [hcap, if_pos hr, if_pos rfl, ih k r, firstCaps_cons_unusable hu]
        · have hu : usablePool tokenIn tokenOut amountIn pool = true := by
            simp [usablePool, hvalid, hcap]
          by_cases hgt : r > calculatePoolCapacity pool amountIn
          · rw [if_pos hgt, if_neg hcap]
            simp only [List.map_cons, List.sum_cons]
            rw [ih (k + 1) (r - calculatePoolCapacity pool amountIn)]
            rw [hm, firstCaps_cons_usable hu]
            omega
          · rw [if_neg hgt, if_neg (by omega : ¬ r = 0)]
            simp only [List.map_cons, List.sum_cons]
            rw [ih (k + 1) (r - r)]
            rw [hm, firstCaps_cons_usable hu]
            omega
      · rw [if_neg hvalid]
        have hu : usablePool tokenIn tokenOut amountIn pool = false := by
          simp [usablePool, hvalid]
        rw [ih k r, firstCaps_cons_unusable hu]
    · rw [if_neg hloop]
      rcases Nat.lt_or_ge k MAX_ROUTES with hk | hk
      · have hr : r = 0 := by omega
        subst hr
        simp
      · have h0 : MAX_ROUTES - k = 0 := by omega
        rw [h0, firstCaps_zero]
        simp

theorem optimizeGo_percentage (tokenIn tokenOut amountIn : Nat) :
    ∀ (pools : List PoolInfo) (k r : Nat) (x : Route × Nat),
      x ∈ (optimizeGo tokenIn tokenOut amountIn pools k r).1 →
      x.1.percentage = x.2 * 10000 / amountIn := by
  intro pools
  induction pools with
  | nil => intro k r x hx; simp [optimizeGo] at hx
  | cons pool rest ih =>
    intro k r x hx
    simp only [optimizeGo] at hx
    by_cases hloop : k < MAX_ROUTES ∧ 0 < r
    · rw [if_pos hloop] at hx
      by_cases hvalid : isValidPool pool tokenIn tokenOut = true
      · rw [if_pos hvalid] at hx
        revert hx
        generalize (if r > calculatePoolCapacity pool amountIn
          then calculatePoolCapacity pool amountIn else r) = ra
        intro hx
        by_cases hz : ra = 0
        · rw [if_pos hz] at hx
          exact ih k r x hx
        · rw [if_neg hz] at hx
          rcases List.mem_cons.mp hx with h | h
          · subst h
            rfl
          · exact ih (k + 1) (r - ra) x h
      · rw [if_neg hvalid] at hx
        exact ih k r x hx
    · rw [if_neg hloop] at hx
      simp at hx

theorem div_add_div_le (u v d : Nat) : u / d + v / d ≤ (u + v) / d := by
  rcases Nat.eq_zero_or_pos d with hd | hd
  · subst hd; simp
  · rw [Nat.le_div_iff_mul_le hd]
    calc (u / d + v / d) * d = u / d * d + v / d * d := Nat.add_mul _ _ _
      _ ≤ u + v := Nat.add_le_add (Nat.div_mul_le_self u d) (Nat.div_mul_le_self v d)

theorem sum_div_le (A B : Nat) :
    ∀ (l : List Nat), (l.map (fun a => a * B / A)).sum ≤ l.sum * B / A := by
  intro l
  induction l with
  | nil => simp
  | cons a t ih =>
    simp only [List.map_cons, List.sum_cons]
    calc a * B / A + ((t.map (fun a => a * B / A)).sum)
        ≤ a * B / A + t.sum * B / A := Nat.add_le_add_left ih _
      _ ≤ (a * B + t.sum * B) / A := div_add_div_le _ _ _
      _ = (a + t.sum) * B / A := by rw [Nat.add_mul]

theorem sum_div_ge (A B : Nat) (hA : 0 < A) :
    ∀ (l : List Nat),
      l.sum * B ≤ A * ((l.map (fun a => a * B / A)).sum) + l.length * (A - 1) := by
  intro l
  induction l with
  | nil => simp
  | cons a t ih =>
    simp only [List.map_cons, List.sum_cons, List.length_cons]
    have hdm := Nat.div_add_mod (a * B) A
    have hmod : a * B % A < A := Nat.mod_lt _ hA
    have e1 : (a + t.sum) * B = a * B + t.sum * B := Nat.add_mul _ _ _
    have e2 : A * (a * B / A + (t.map (fun a => a * B / A)).sum)
        = A * (a * B / A) + A * ((t.map (fun a => a * B / A)).sum) := Nat.mul_add _ _ _
    have e3 : (t.length + 1) * (A - 1) = t.length * (A - 1) + (A - 1) :=
      Nat.succ_mul _ _
    omega

end RouteOptimizer

section C4Theorems

open RouteOptimizer

/-- C4 (amended): for every request with `amountIn > 0`, the
allocation returned by `optimizeRoute` has at most MAX_ROUTES legs;
its leg input amounts sum to `min(amountIn, capacity of the first
MAX_ROUTES usable candidates)` (not of all candidates); each leg's
percentage is `⌊legAmount·10000/amountIn⌋`; and whenever the legs sum
to the full `amountIn`, the percentages sum to 10000 bps within an
(entries − 1)-bps tolerance from below and never exceed 10000. -/
theorem ro_C4_allocation (tokenIn tokenOut amountIn : Nat) (pools : List PoolInfo)
    (hamt : 0 < amountIn) :
    ((optimizeRoute tokenIn tokenOut amountIn pools).1).length ≤ MAX_ROUTES
    ∧ (optimizeLegAmounts tokenIn tokenOut amountIn pools).sum
        = min amountIn (firstCaps tokenIn tokenOut amountIn pools MAX_ROUTES)
    ∧ (∀ x ∈ (optimizeGo tokenIn tokenOut amountIn pools 0 amountIn).1,
        x.1.percentage = x.2 * 10000 / amountIn)
    ∧ ((optimizeLegAmounts tokenIn tokenOut amountIn pools).sum = amountIn →
        10000 - (((optimizeRoute tokenIn tokenOut amountIn pools).1).length - 1)
          ≤ ((((optimizeRoute tokenIn tokenOut amountIn pools).1).map Route.percentage).sum)
        ∧ ((((optimizeRoute tokenIn tokenOut amountIn pools).1).map Route.percentage).sum)
          ≤ 10000) := by
  refine ⟨?_, ?_, ?_, ?_⟩
  · show (((optimizeGo tokenIn tokenOut amountIn pools 0 amountIn).1).map Prod.fst).length
      ≤ MAX_ROUTES
    rw [List.length_map]
    simpa using optimizeGo_length tokenIn tokenOut amountIn pools 0 amountIn
  · show (((optimizeGo tokenIn tokenOut amountIn pools 0 amountIn).1).map Prod.snd).sum = _
    simpa using optimizeGo_sum tokenIn tokenOut amountIn pools 0 amountIn
  · exact fun x hx => optimizeGo_percentage tokenIn tokenOut amountIn pools 0 amountIn x hx
  · intro hfull
    have hsum : ((((optimizeGo tokenIn tokenOut amountIn pools 0 amountIn).1)).map
        Prod.snd).sum = amountIn := hfull
    have hmapeq : ((((optimizeGo tokenIn tokenOut amountIn pools 0 amountIn).1).map
          Prod.fst).map Route.percentage)
        = (((optimizeGo tokenIn tokenOut amountIn pools 0 amountIn).1).map
          Prod.snd).map (fun a => a * 10000 / amountIn) := by
      rw [List.map_map, List.map_map]
      apply List.map_congr_left
      intro x hx
      exact optimizeGo_percentage tokenIn tokenOut amountIn pools 0 amountIn x hx
    have hupper : ((((optimizeGo tokenIn tokenOut amountIn pools 0 amountIn).1).map
        Prod.snd).map (fun a => a * 10000 / amountIn)).sum ≤ 10000 := by
      have h1 := sum_div_le amountIn 10000
        (((optimizeGo tokenIn tokenOut amountIn pools 0 amountIn).1).map Prod.snd)
      rw [hsum, Nat.mul_div_cancel_left _ hamt] at h1
      exact h1
    have hlen1 : 1 ≤ ((optimizeGo tokenIn tokenOut amountIn pools 0 amountIn).1).length := by
      rcases hL : (optimizeGo tokenIn tokenOut amountIn pools 0 amountIn).1 with _ | ⟨x, t⟩
      · rw [hL] at hsum
        simp at hsum
        omega
      · simp
    have hlower : 10000
        < ((((optimizeGo tokenIn tokenOut amountIn pools 0 amountIn).1).map
            Prod.snd).map (fun a => a * 10000 / amountIn)).sum
          + ((optimizeGo tokenIn tokenOut amountIn pools 0 amountIn).1).length := by
      have h2 := sum_div_ge amountIn 10000 hamt
        (((optimizeGo tokenIn tokenOut amountIn pools 0 amountIn).1).map Prod.snd)
      rw [hsum, List.length_map] at h2
      have e1 : ((optimizeGo tokenIn tokenOut amountIn pools 0 amountIn).1).length
            * (amountIn - 1)
            + ((optimizeGo tokenIn tokenOut amountIn pools 0 amountIn).1).length
          = ((optimizeGo tokenIn tokenOut amountIn pools 0 amountIn).1).length
            * amountIn := by
        have ha : amountIn - 1 + 1 = amountIn := by omega
        calc ((optimizeGo tokenIn tokenOut amountIn pools 0 amountIn).1).length
              * (amountIn - 1)
              + ((optimizeGo tokenIn tokenOut amountIn pools 0 amountIn).1).length
            = ((optimizeGo tokenIn tokenOut amountIn pools 0 amountIn).1).length
              * ((amountIn - 1) + 1) := (Nat.mul_succ _ _).symm
          _ = _ := by rw [ha]
      have e2 : amountIn
            * (((((optimizeGo tokenIn tokenOut amountIn pools 0 amountIn).1).map
                Prod.snd).map (fun a => a * 10000 / amountIn)).sum
              + ((optimizeGo tokenIn tokenOut amountIn pools 0 amountIn).1).length)
          = amountIn
            * ((((optimizeGo tokenIn tokenOut amountIn pools 0 amountIn).1).map
                Prod.snd).map (fun a => a * 10000 / amountIn)).sum
            + ((optimizeGo tokenIn tokenOut amountIn pools 0 amountIn).1).length
              * amountIn := by
        ring
      apply @Nat.lt_of_mul_lt_mul_left amountIn
      omega
    constructor
    · show 10000
        - ((((optimizeGo tokenIn tokenOut amountIn pools 0 amountIn).1).map
            Prod.fst).length - 1)
        ≤ (((((optimizeGo tokenIn tokenOut amountIn pools 0 amountIn).1).map
            Prod.fst)).map Route.percentage).sum
      rw [hmapeq, List.length_map]
      omega
    · show (((((optimizeGo tokenIn tokenOut amountIn pools 0 amountIn).1).map
          Prod.fst)).map Route.percentage).sum ≤ 10000
      rw [hmapeq]
      exact hupper

/-- Witness for C4's amended claim on the specification's worked
example: two candidates with capacities 60 and 80 and `amountIn = 100`
yield legs summing to 100 with percentages [6000, 4000]. -/
theorem ro_C4_allocation_witness :
    ((optimizeRoute 2 3 100 poolsAB).1).length ≤ MAX_ROUTES
    ∧ (optimizeLegAmounts 2 3 100 poolsAB).sum
        = min 100 (firstCaps 2 3 100 poolsAB MAX_ROUTES)
    ∧ (∀ x ∈ (optimizeGo 2 3 100 poolsAB 0 100).1,
        x.1.percentage = x.2 * 10000 / 100)
    ∧ ((optimizeLegAmounts 2 3 100 poolsAB).sum = 100 →
        10000 - (((optimizeRoute 2 3 100 poolsAB).1).length - 1)
          ≤ ((((optimizeRoute 2 3 100 poolsAB).1).map Route.percentage).sum)
        ∧ ((((optimizeRoute 2 3 100 poolsAB).1).map Route.percentage).sum) ≤ 10000) :=
  ro_C4_allocation 2 3 100 poolsAB (by decide)

end C4Theorems
